import Mathlib

/-!
Verification of the build orchestrator, packager and zip engine of the
serverless-esbuild plugin, shallowly embedded from the TypeScript sources
(`src/bundle.ts`, the Bun packager `src/packagers/bun.ts`, and the zip /
process utilities `src/utils.ts`).

JavaScript objects are modelled as ordered association lists over a small
universe `JsVal` of JSON-like values; JS property access, deletion through
rest-destructuring, and assignment are modelled by `lookupA`, `eraseKey`
and `setKeyA`.  External effects (the esbuild compiler, spawned processes,
the filesystem, the archiver stream) are modelled by recording the exact
requests the code hands to them.
-/

set_option autoImplicit false

namespace ServerlessEsbuild

/-- JSON-like JavaScript values: `vundef` models `undefined` (absent
properties), the other constructors model `JSON.parse` output and the
plugin configuration values. -/
inductive JsVal where
  | vnull
  | vundef
  | vbool (b : Bool)
  | vnum (n : Int)
  | vstr (s : String)
  | varr (elems : List JsVal)
  | vobj (fields : List (String × JsVal))

/-- JS property read `o[k]` on an object modelled as an ordered
association list (JS object keys are unique, so first match wins). -/
def lookupA {α : Type} : List (String × α) → String → Option α
  | [], _ => none
  | (k, v) :: rest, key => if k = key then some v else lookupA rest key

/-- JS rest-destructuring `const { [k]: _, ...rest } = o`: the object
without the property `k`. -/
def eraseKey {α : Type} (key : String) : List (String × α) → List (String × α)
  | [] => []
  | (k, v) :: rest => if k = key then eraseKey key rest else (k, v) :: eraseKey key rest

/-- JS property write `o[k] = v`: overwrite the property in place when it
exists, otherwise append it. -/
def setKeyA {α : Type} (key : String) (val : α) : List (String × α) → List (String × α)
  | [] => [(key, val)]
  | (k, v) :: rest => if k = key then (key, val) :: rest else (k, v) :: setKeyA key val rest

theorem lookupA_setKeyA_self {α : Type} (key : String) (val : α) (o : List (String × α)) :
    lookupA (setKeyA key val o) key = some val := by
  induction o with
  | nil => simp [setKeyA, lookupA]
  | cons p rest ih =>
    obtain ⟨k, v⟩ := p
    by_cases h : k = key
    · simp [setKeyA, h, lookupA]
    · simp [setKeyA, h, lookupA, ih]

theorem lookupA_setKeyA_ne {α : Type} {key k2 : String} (val : α) (o : List (String × α))
    (h : k2 ≠ key) : lookupA (setKeyA key val o) k2 = lookupA o k2 := by
  induction o with
  | nil => simp [setKeyA, lookupA, Ne.symm h]
  | cons p rest ih =>
    obtain ⟨k, v⟩ := p
    by_cases hk : k = key
    · subst hk
      simp [setKeyA, lookupA, Ne.symm h]
    · by_cases hk2 : k = k2
      · subst hk2
        simp [setKeyA, hk, lookupA]
      · simp [setKeyA, hk, lookupA, hk2, ih]

theorem lookupA_eraseKey_self {α : Type} (key : String) (o : List (String × α)) :
    lookupA (eraseKey key o) key = none := by
  induction o with
  | nil => simp [eraseKey, lookupA]
  | cons p rest ih =>
    obtain ⟨k, v⟩ := p
    by_cases h : k = key
    · simp [eraseKey, h, ih]
    · simp [eraseKey, h, lookupA, ih]

theorem lookupA_eraseKey_ne {α : Type} {key k2 : String} (o : List (String × α))
    (h : k2 ≠ key) : lookupA (eraseKey key o) k2 = lookupA o k2 := by
  induction o with
  | nil => simp [eraseKey]
  | cons p rest ih =>
    obtain ⟨k, v⟩ := p
    by_cases hk : k = key
    · subst hk
      simp [eraseKey, lookupA, Ne.symm h, ih]
    · by_cases hk2 : k = k2
      · subst hk2
        simp [eraseKey, hk, lookupA]
      · simp [eraseKey, hk, lookupA, hk2, ih]

theorem lookupA_eraseFold_none {α : Type} (ks : List String) (o : List (String × α))
    (key : String) (h : lookupA o key = none) :
    lookupA (ks.foldl (fun acc k => eraseKey k acc) o) key = none := by
  induction ks generalizing o with
  | nil => simpa using h
  | cons k ks ih =>
    simp only [List.foldl_cons]
    apply ih
    by_cases hk : key = k
    · subst hk
      exact lookupA_eraseKey_self key o
    · rw [lookupA_eraseKey_ne o hk]
      exact h

theorem lookupA_eraseFold_mem {α : Type} (ks : List String) (o : List (String × α))
    (key : String) (h : key ∈ ks) :
    lookupA (ks.foldl (fun acc k => eraseKey k acc) o) key = none := by
  induction ks generalizing o with
  | nil => cases h
  | cons k ks ih =>
    simp only [List.foldl_cons]
    rcases List.mem_cons.mp h with hk | hk
    · subst hk
      exact lookupA_eraseFold_none ks _ key (lookupA_eraseKey_self key o)
    · exact ih _ hk

/-- Worker for the JS `String.prototype.lastIndexOf` restricted to a
single character: the index of the last occurrence, if any. -/
def lastIdx (c : Char) : List Char → Option Nat
  | [] => none
  | a :: rest =>
    match lastIdx c rest with
    | some i => some (i + 1)
    | none => if a = c then some 0 else none

/-- JS `s.lastIndexOf(c)`: index of the last occurrence of `c`, or `-1`
when `c` does not occur. -/
def jsLastIndexOf (s : List Char) (c : Char) : Int :=
  match lastIdx c s with
  | some i => (i : Int)
  | none => -1

/-- JS `s.slice(0, e)`: a negative end offset counts from the end of the
string (clamped at 0); a nonnegative one takes that many characters. -/
def jsSliceTo (s : List Char) (e : Int) : List Char :=
  if e < 0 then s.take (s.length - (-e).toNat) else s.take e.toNat

/-- `src/bundle.ts` line 120:
`entry.slice(0, entry.lastIndexOf('.')) + buildOptions.outputFileExtension`. -/
def bundlePathChars (entry ext : List Char) : List Char :=
  jsSliceTo entry (jsLastIndexOf entry '.') ++ ext

/-- String wrapper around `bundlePathChars`. -/
def bundlePathStr (entry ext : String) : String :=
  String.mk (bundlePathChars entry.data ext.data)

theorem lastIdx_eq_none {c : Char} {s : List Char} (h : ∀ a ∈ s, a ≠ c) :
    lastIdx c s = none := by
  induction s with
  | nil => rfl
  | cons a rest ih =>
    have ha : a ≠ c := h a (List.mem_cons_self a rest)
    have hrest := ih (fun x hx => h x (List.mem_cons_of_mem a hx))
    simp [lastIdx, hrest, ha]

theorem lastIdx_append_cons (c : Char) (pre suf : List Char) (h : ∀ a ∈ suf, a ≠ c) :
    lastIdx c (pre ++ c :: suf) = some pre.length := by
  induction pre with
  | nil => simp [lastIdx, lastIdx_eq_none h]
  | cons a rest ih => simp [lastIdx, ih]

/-- When the entry decomposes around its last dot, the computed bundle
path is the prefix before that dot followed by the extension. -/
theorem bundlePathChars_split (pre suf ext : List Char) (h : ∀ a ∈ suf, a ≠ '.') :
    bundlePathChars (pre ++ '.' :: suf) ext = pre ++ ext := by
  unfold bundlePathChars jsLastIndexOf
  rw [lastIdx_append_cons '.' pre suf h]
  simp only [jsSliceTo]
  rw [if_neg (by exact not_lt.mpr (Int.natCast_nonneg _))]
  simp [List.take_left]

/-- When the entry has no dot at all, the computed bundle path drops the
final character of the entry and appends the extension. -/
theorem bundlePathChars_dotFree (s ext : List Char) (h : ∀ a ∈ s, a ≠ '.') :
    bundlePathChars s ext = s.dropLast ++ ext := by
  unfold bundlePathChars jsLastIndexOf
  rw [lastIdx_eq_none h]
  simp [jsSliceTo, List.dropLast_eq_take]

/-- Modelled from the spec: `asArray` from the helper module (the helper
source is not under src/) — an array option value passes through,
null/undefined gives the empty array, any other value becomes a
singleton array. -/
def asArray : JsVal → List JsVal
  | .varr elems => elems
  | .vnull => []
  | .vundef => []
  | v => [v]

/-- `src/bundle.ts` line 13: keep only the strings of the array form of
the input. -/
def getStringArray (input : JsVal) : List String :=
  (asArray input).filterMap (fun v => match v with | .vstr s => some s | _ => none)

/-- `src/bundle.ts` lines 19–33 (`getExternalNames`): plain strings
contribute themselves; non-null objects contribute their keys (for a JS
array value the own enumerable keys are its index strings). -/
def getExternalNames (externals : JsVal) : List String :=
  (asArray externals).flatMap (fun item =>
    match item with
    | .vstr s => [s]
    | .vobj fields => fields.map Prod.fst
    | .varr elems => (List.range elems.length).map (fun i => toString i)
    | _ => [])

/-- `src/bundle.ts` lines 45–66: the plugin-specific option names deleted
from the configuration before it is handed to esbuild. -/
def pluginOptionKeys : List String :=
  ["concurrency", "zipConcurrency", "exclude", "nativeZip", "packager",
   "packagePath", "watch", "keepOutputDirectory", "packagerOptions",
   "installExtraArgs", "installDeps", "outputFileExtension",
   "outputBuildFolder", "outputWorkFolder", "nodeExternals", "skipBuild",
   "skipRebuild", "skipBuildExcludeFns", "stripEntryResolveExtensions",
   "disposeContext"]

/-- `src/bundle.ts` lines 42–76: strip the plugin-only keys by repeated
rest-destructuring, then build the esbuild config with the computed
`external` list (external names followed by the exclude names, unless the
exclude list contains the wildcard "*") and the plugins. -/
def bundleConfig (buildOptions : List (String × JsVal)) (plugins : JsVal) :
    List (String × JsVal) :=
  let exclude := getStringArray ((lookupA buildOptions "exclude").getD .vundef)
  let esbuildOptions := pluginOptionKeys.foldl (fun acc k => eraseKey k acc) buildOptions
  let externalList :=
    getExternalNames ((lookupA buildOptions "external").getD .vundef) ++
      (if exclude.contains "*" then [] else exclude)
  setKeyA "plugins" plugins (setKeyA "external" (.varr (externalList.map .vstr)) esbuildOptions)

/-- `src/bundle.ts` lines 98–113: the full configuration object handed to
`pkg.build` — the stripped config, plus `outExtension` when the output
extension is not ".js", plus the per-call `entryPoints`, `outdir` and
`outbase`. -/
def invocationConfig (buildOptions : List (String × JsVal)) (plugins : JsVal)
    (entryPoints : List String) (outdir : String) : List (String × JsVal) :=
  let config := bundleConfig buildOptions plugins
  let config :=
    match lookupA buildOptions "outputFileExtension" with
    | some (.vstr e) =>
        if e ≠ ".js" then setKeyA "outExtension" (.vobj [(".js", .vstr e)]) config else config
    | _ => config
  setKeyA "outbase" (.vstr ".")
    (setKeyA "outdir" (.vstr outdir)
      (setKeyA "entryPoints" (.varr (entryPoints.map .vstr)) config))

/-- The opaque serverless function definition carried by a function
entry; the orchestrator never looks inside it. -/
structure FunctionDef where
  handler : String
deriving DecidableEq

/-- `FunctionEntry` from types.ts: the entry source path, the function
definition (possibly null, modelled as `Option`) and the function alias. -/
structure FunctionEntry where
  entry : String
  func : Option FunctionDef
  functionAlias : String
deriving DecidableEq

/-- `FileBuildResult` from types.ts, one per unique entry; the opaque
esbuild `result` field is not modelled. -/
structure FileBuildResult where
  bundlePath : String
  entry : String
deriving DecidableEq

/-- `FunctionBuildResult` from types.ts, one per surviving function
entry. -/
structure FunctionBuildResult where
  bundlePath : String
  func : FunctionDef
  functionAlias : String
deriving DecidableEq

/-- The configured concurrency limit (`Infinity` or a number). -/
inductive Concurrency where
  | inf
  | fin (n : Nat)
deriving DecidableEq

/-- The typed view of the build options that the `bundle` control flow
reads (or deliberately ignores: `concurrency`, `skipBuild` and
`skipBundle` are carried so theorems can quantify over them, and the
embedded `bundle` ignores them exactly as the source does). -/
structure BuildOptions where
  format : Option String := none
  platform : Option String := none
  outputFileExtension : String := ".js"
  concurrency : Concurrency := .inf
  skipBuild : Bool := false
  skipBundle : Bool := false
deriving DecidableEq

/-- Modelled from the spec: `isESM` from the helper module (the helper
source is not under src/) — a build is an ES-module build when the module
format is "esm" or the platform is "neutral". -/
def isESM (opts : BuildOptions) : Bool :=
  opts.format == some "esm" || opts.platform == some "neutral"

/-- ramda's `uniq` as used at `src/bundle.ts` line 103: keep the first
occurrence of each element, in first-seen order. -/
def uniq (xs : List String) : List String :=
  xs.foldl (fun acc x => if x ∈ acc then acc else acc ++ [x]) []

/-- `src/bundle.ts` lines 124–129: reduce the file build results into a
local cache object keyed by entry. -/
def buildCacheOf (rs : List FileBuildResult) : List (String × FileBuildResult) :=
  rs.foldl (fun acc r => setKeyA r.entry r acc) []

/-- `src/bundle.ts` lines 131–142: map function entries back to bundles;
an entry whose cache lookup misses or whose func is null is dropped
(filtered out), every other entry yields one result. -/
def mapBuildResults (functionEntries : List FunctionEntry) (rs : List FileBuildResult) :
    List FunctionBuildResult :=
  functionEntries.filterMap (fun fe =>
    match lookupA (buildCacheOf rs) fe.entry, fe.func with
    | some r, some f => some { bundlePath := r.bundlePath, func := f, functionAlias := fe.functionAlias }
    | _, _ => none)

/-- Error message thrown at `src/bundle.ts` line 87. -/
def esmCjsErrorMsg : String :=
  "ERROR: format \"esm\" or platform \"neutral\" should not output a file with extension \".cjs\"."

/-- Error message thrown at `src/bundle.ts` line 95. -/
def nonEsmMjsErrorMsg : String :=
  "ERROR: Non esm builds should not output a file with extension \".mjs\"."

/-- The observable outcome of one `bundle` call: the `entryPoints` list of
each esbuild invocation performed, in order, and the final
`buildResults`. -/
structure BundleResult where
  invocations : List (List String)
  buildResults : List FunctionBuildResult
deriving DecidableEq

/-- `src/bundle.ts` `bundle()`: validate the output extension against the
module format, deduplicate the function entries, perform a single esbuild
invocation with all unique entry points (the source comments call this
out: "Build all entrypoints in a single esbuild call for shared module
graph"), compute each entry's bundle path and map the function entries
back to results.  A thrown configuration error is the `Except.error`
case; no invocation is recorded on that path. -/
def bundle (opts : BuildOptions) (functionEntries : List FunctionEntry) :
    Except String BundleResult :=
  if isESM opts && opts.outputFileExtension == ".cjs" then
    .error esmCjsErrorMsg
  else if !isESM opts && opts.outputFileExtension == ".mjs" then
    .error nonEsmMjsErrorMsg
  else
    let uniqueFiles := uniq (functionEntries.map (fun fe => fe.entry))
    let fileBuildResults := uniqueFiles.map (fun entry =>
      ({ bundlePath := bundlePathStr entry opts.outputFileExtension, entry := entry } : FileBuildResult))
    .ok { invocations := [uniqueFiles],
          buildResults := mapBuildResults functionEntries fileBuildResults }

/-- An `IFile` from types.ts: source path plus archive-relative path. -/
structure IFile where
  rootPath : String
  localPath : String
deriving DecidableEq

/-- The filesystem status of a source path as seen by `fs.statSync`: the
directory flag, the permission mode bits, and the file content the
archiver would stream (bytes as naturals). -/
structure FileStats where
  isDirectory : Bool
  mode : Nat
  content : List Nat
deriving DecidableEq

/-- One entry of the archive stream handed to the external archiver:
name, permission mode, embedded modification timestamp (milliseconds
since the epoch) and content. -/
structure ZipEntry where
  name : String
  mode : Nat
  date : Nat
  content : List Nat
deriving DecidableEq

/-- `src/utils.ts` lines 121–151 (`nodeZip`): the direct-streaming zip
engine.  The external archiver is a black box that writes a byte stream
determined by the sequence of entries appended to it, so the archive
content is modelled as that entry sequence.  Each input file is stat-ed
(through the optional cache, modelled as part of the `stat` map),
directory entries are skipped, and every appended entry carries the
original mode and the forced date `new Date(0)`.  The target path only
selects the output stream and does not influence the entries. -/
def nodeZip (zipPath : String) (filesPathList : List IFile) (stat : String → FileStats) :
    List ZipEntry :=
  let _ := zipPath
  filesPathList.filterMap (fun file =>
    let stats := stat file.rootPath
    if stats.isDirectory then none
    else some { name := file.localPath, mode := stats.mode, date := 0, content := stats.content })

/-- A spawned external process invocation: command and argument list. -/
structure SpawnCall where
  command : String
  args : List String
deriving DecidableEq

/-- `src/packagers/bun.ts` `install`: run `bun install --production
<extraArgs>`; when that spawn rejects, swallow the error and run `bun
install <extraArgs>` once; the fallback's outcome is the call's outcome.
`spawn` abstracts `spawnProcess` and returns the captured error output on
a non-zero exit; the returned list records the spawned invocations in
order. -/
def bunInstall (extraArgs : List String) (spawn : List String → Except String Unit) :
    List SpawnCall × Except String Unit :=
  let command := "bun"
  let args := "install" :: "--production" :: extraArgs
  match spawn args with
  | .ok _ => ([{ command := command, args := args }], .ok ())
  | .error _ =>
    let fallbackArgs := "install" :: extraArgs
    match spawn fallbackArgs with
    | .ok _ => ([{ command := command, args := args }, { command := command, args := fallbackArgs }], .ok ())
    | .error e =>
        ([{ command := command, args := args }, { command := command, args := fallbackArgs }], .error e)

/-- `DependenciesResult` from types.ts: the name → `{version}` record
produced by the dependency extractor (values kept as JS values). -/
structure DependenciesResult where
  dependencies : List (String × JsVal)

/-- JS truthiness of a value, as used by `packageJson.dependencies || {}`. -/
def jsTruthy : JsVal → Bool
  | .vnull => false
  | .vundef => false
  | .vbool b => b
  | .vnum n => n != 0
  | .vstr s => s != ""
  | _ => true

/-- JS `Object.entries`: own enumerable string-keyed entries — the fields
of an object, the indexed elements of an array, the indexed characters of
a string, nothing for primitives. -/
def jsEntries : JsVal → List (String × JsVal)
  | .vobj fields => fields
  | .varr elems => elems.enum.map (fun p => (toString p.1, p.2))
  | .vstr s => s.data.enum.map (fun p => (toString p.1, JsVal.vstr (String.mk [p.2])))
  | _ => []

/-- `src/packagers/bun.ts` `getProdDependencies`: read and parse
`package.json` (`manifest` is `some` parsed JSON when the file is
readable and valid, `none` when reading or parsing threw — the catch
branch), take `packageJson.dependencies || {}`, and store each entry as
`{ version }` keyed by name. -/
def getProdDependencies (manifest : Option JsVal) : DependenciesResult :=
  match manifest with
  | none => { dependencies := [] }
  | some packageJson =>
    let depsRead : Option JsVal :=
      match packageJson with
      | .vobj fields => lookupA fields "dependencies"
      | _ => none
    let dependencies : JsVal :=
      match depsRead with
      | some v => if jsTruthy v then v else .vobj []
      | none => .vobj []
    { dependencies :=
        (jsEntries dependencies).foldl
          (fun acc p => setKeyA p.1 (JsVal.vobj [("version", p.2)]) acc) [] }

theorem mem_foldl_uniq (xs : List String) (acc : List String) (x : String) :
    x ∈ xs.foldl (fun acc y => if y ∈ acc then acc else acc ++ [y]) acc ↔ x ∈ acc ∨ x ∈ xs := by
  induction xs generalizing acc with
  | nil => simp
  | cons y rest ih =>
    simp only [List.foldl_cons]
    rw [ih]
    by_cases hy : y ∈ acc
    · simp only [if_pos hy, List.mem_cons]
      constructor
      · rintro (h | h)
        · exact Or.inl h
        · exact Or.inr (Or.inr h)
      · rintro (h | h | h)
        · exact Or.inl h
        · exact Or.inl (h ▸ hy)
        · exact Or.inr h
    · simp only [if_neg hy, List.mem_append, List.mem_singleton, List.mem_cons]
      tauto

theorem mem_uniq_of_mem {xs : List String} {x : String} (h : x ∈ xs) : x ∈ uniq xs := by
  unfold uniq
  exact (mem_foldl_uniq xs [] x).mpr (Or.inr h)

theorem lookupA_foldlSet_of_not_mem (rs : List FileBuildResult)
    (acc : List (String × FileBuildResult)) (e : String) (h : ∀ r ∈ rs, r.entry ≠ e) :
    lookupA (rs.foldl (fun a r => setKeyA r.entry r a) acc) e = lookupA acc e := by
  induction rs generalizing acc with
  | nil => rfl
  | cons r rest ih =>
    simp only [List.foldl_cons]
    rw [ih _ (fun x hx => h x (List.mem_cons_of_mem r hx))]
    exact lookupA_setKeyA_ne r acc (Ne.symm (h r (List.mem_cons_self r rest)))

theorem lookupA_foldlSet_map (us : List String) (b : String → String)
    (acc : List (String × FileBuildResult)) (e : String) (he : e ∈ us) :
    lookupA ((us.map (fun u => ({ bundlePath := b u, entry := u } : FileBuildResult))).foldl
        (fun a r => setKeyA r.entry r a) acc) e =
      some { bundlePath := b e, entry := e } := by
  induction us generalizing acc with
  | nil => cases he
  | cons u rest ih =>
    simp only [List.map_cons, List.foldl_cons]
    by_cases hr : e ∈ rest
    · exact ih _ hr
    · have hu : e = u := by
        rcases List.mem_cons.mp he with h | h
        · exact h
        · exact absurd h hr
      subst hu
      rw [lookupA_foldlSet_of_not_mem _ _ _ (by
        intro r hmem
        rcases List.mem_map.mp hmem with ⟨v, hv, hveq⟩
        intro hcontra
        apply hr
        rw [← hcontra, ← hveq]
        exact hv)]
      exact lookupA_setKeyA_self e _ acc

theorem lookupA_buildCache_map (us : List String) (b : String → String) (e : String)
    (he : e ∈ us) :
    lookupA (buildCacheOf (us.map (fun u => ({ bundlePath := b u, entry := u } : FileBuildResult)))) e =
      some { bundlePath := b e, entry := e } := by
  unfold buildCacheOf
  exact lookupA_foldlSet_map us b [] e he

theorem bundle_ok_inv (opts : BuildOptions) (entries : List FunctionEntry) (r : BundleResult)
    (h : bundle opts entries = .ok r) :
    r = { invocations := [uniq (entries.map (fun fe => fe.entry))],
          buildResults := mapBuildResults entries
            ((uniq (entries.map (fun fe => fe.entry))).map (fun entry =>
              ({ bundlePath := bundlePathStr entry opts.outputFileExtension, entry := entry } :
                FileBuildResult))) } := by
  unfold bundle at h
  split at h
  · cases h
  · split at h
    · cases h
    · injection h with h2
      exact h2.symm

theorem setKeyA_append_of_not_mem {α : Type} (key : String) (val : α)
    (o : List (String × α)) (h : key ∉ o.map Prod.fst) :
    setKeyA key val o = o ++ [(key, val)] := by
  induction o with
  | nil => rfl
  | cons p rest ih =>
    obtain ⟨k, v⟩ := p
    have hk : k ≠ key := by
      intro hcontra
      exact h (by simp [hcontra])
    simp only [setKeyA, if_neg hk, List.cons_append]
    rw [ih (fun hc => h (List.mem_cons_of_mem _ hc))]

theorem foldlSet_eq_append (wrap : JsVal → JsVal) (kvs : List (String × JsVal))
    (acc : List (String × JsVal))
    (h : (acc.map Prod.fst ++ kvs.map Prod.fst).Nodup) :
    kvs.foldl (fun a p => setKeyA p.1 (wrap p.2) a) acc =
      acc ++ kvs.map (fun p => (p.1, wrap p.2)) := by
  induction kvs generalizing acc with
  | nil => simp
  | cons p rest ih =>
    obtain ⟨k, v⟩ := p
    simp only [List.map_cons] at h
    have hnotacc : k ∉ acc.map Prod.fst := by
      rcases List.nodup_append.mp h with ⟨_, _, hdisj⟩
      intro hc
      exact hdisj hc (List.mem_cons_self _ _)
    simp only [List.foldl_cons]
    rw [setKeyA_append_of_not_mem k (wrap v) acc hnotacc]
    rw [ih (acc ++ [(k, wrap v)]) (by simpa [List.append_assoc] using h)]
    simp

/-- Claim C1 (counterexample): with three unique entries and a configured
concurrency of 2 the claim predicts ceil(3/2) = 2 compiler invocations
with batches [file1, file2] and [file3]; the code performs exactly one
invocation containing all three unique entries — the concurrency option
is never consulted. -/
theorem claim1_counterexample :
    ((bundle { concurrency := .fin 2 }
        [{ entry := "file1.ts", func := some { handler := "file1.handler" }, functionAlias := "func1" },
         { entry := "file2.ts", func := some { handler := "file2.handler" }, functionAlias := "func2" },
         { entry := "file3.ts", func := some { handler := "file3.handler" }, functionAlias := "func3" }]).toOption.map
      (fun r => r.invocations)) = some [["file1.ts", "file2.ts", "file3.ts"]] ∧
    ((bundle { concurrency := .fin 2 }
        [{ entry := "file1.ts", func := some { handler := "file1.handler" }, functionAlias := "func1" },
         { entry := "file2.ts", func := some { handler := "file2.handler" }, functionAlias := "func2" },
         { entry := "file3.ts", func := some { handler := "file3.handler" }, functionAlias := "func3" }]).toOption.map
      (fun r => r.invocations)) ≠ some [["file1.ts", "file2.ts"], ["file3.ts"]] := by
  exact ⟨rfl, by decide⟩

/-- Claim C1 (amended): for every configuration and entry list, a
successful bundle performs exactly one compiler invocation whose entry
points are all unique entry paths in order of first occurrence,
regardless of the configured concurrency (a concurrency of infinity in
particular yields that single invocation). -/
theorem claim1_amended (opts : BuildOptions) (entries : List FunctionEntry) (r : BundleResult)
    (h : bundle opts entries = .ok r) :
    r.invocations = [uniq (entries.map (fun fe => fe.entry))] := by
  rw [bundle_ok_inv opts entries r h]

/-- Witness for the amended C1 at a concrete input with a duplicated
entry and a finite concurrency. -/
theorem claim1_amended_witness :
    ({ invocations := [["a.ts"]],
       buildResults := [{ bundlePath := "a.js", func := { handler := "h1" }, functionAlias := "f1" },
                        { bundlePath := "a.js", func := { handler := "h2" }, functionAlias := "f2" }] } :
      BundleResult).invocations =
      [uniq (([{ entry := "a.ts", func := some { handler := "h1" }, functionAlias := "f1" },
               { entry := "a.ts", func := some { handler := "h2" }, functionAlias := "f2" }] :
        List FunctionEntry).map (fun fe => fe.entry))] :=
  claim1_amended { concurrency := .fin 3 }
    [{ entry := "a.ts", func := some { handler := "h1" }, functionAlias := "f1" },
     { entry := "a.ts", func := some { handler := "h2" }, functionAlias := "f2" }] _ rfl

/-- Claim C2 (code bug, evaluated at the failing input): with the
skip-build options enabled, the bundle function still performs a compiler
invocation — it never consults the skip option — in contradiction with
the repository's own skipBundle tests, which demand zero esbuild calls. -/
theorem claim2_skip_build_still_invokes :
    bundle { skipBuild := true, skipBundle := true }
        [{ entry := "file1.ts", func := some { handler := "file1.handler" }, functionAlias := "func1" }] =
      .ok { invocations := [["file1.ts"]],
            buildResults := [{ bundlePath := "file1.js", func := { handler := "file1.handler" },
                               functionAlias := "func1" }] } ∧
    ((bundle { skipBuild := true, skipBundle := true }
        [{ entry := "file1.ts", func := some { handler := "file1.handler" }, functionAlias := "func1" }]).toOption.map
      (fun r => r.invocations.length)) ≠ some 0 := by
  exact ⟨rfl, by decide⟩

/-- Claim C3: an ESM build (format "esm" or platform "neutral") with
output extension ".cjs" fails before any compiler invocation; a non-ESM
build with extension ".mjs" likewise; every other extension/format
combination raises no such error and reaches exactly one compiler
invocation. -/
theorem claim3_extension_format_validation (opts : BuildOptions) (entries : List FunctionEntry) :
    (isESM opts = true → opts.outputFileExtension = ".cjs" →
      bundle opts entries = .error esmCjsErrorMsg) ∧
    (isESM opts = false → opts.outputFileExtension = ".mjs" →
      bundle opts entries = .error nonEsmMjsErrorMsg) ∧
    (¬(isESM opts = true ∧ opts.outputFileExtension = ".cjs") →
      ¬(isESM opts = false ∧ opts.outputFileExtension = ".mjs") →
      ∃ r, bundle opts entries = .ok r ∧ r.invocations.length = 1) := by
  refine ⟨?_, ?_, ?_⟩
  · intro h1 h2
    simp [bundle, h1, h2]
  · intro h1 h2
    simp [bundle, h1, h2]
  · intro h1 h2
    have hc1 : (isESM opts && opts.outputFileExtension == ".cjs") = false := by
      cases hE : isESM opts
      · simp
      · simp only [Bool.true_and]
        exact beq_eq_false_iff_ne.mpr (fun hx => h1 ⟨hE, hx⟩)
    have hc2 : (!isESM opts && opts.outputFileExtension == ".mjs") = false := by
      cases hE : isESM opts
      · simp only [Bool.not_false, Bool.true_and]
        exact beq_eq_false_iff_ne.mpr (fun hx => h2 ⟨hE, hx⟩)
      · simp
    have hb : bundle opts entries =
        .ok { invocations := [uniq (entries.map (fun fe => fe.entry))],
              buildResults := mapBuildResults entries
                ((uniq (entries.map (fun fe => fe.entry))).map (fun entry =>
                  ({ bundlePath := bundlePathStr entry opts.outputFileExtension, entry := entry } :
                    FileBuildResult))) } := by
      simp [bundle, hc1, hc2]
    exact ⟨_, hb, rfl⟩

/-- Witness for C3: the two error cases and one success case at concrete
configurations. -/
theorem claim3_witness :
    bundle { format := some "esm", outputFileExtension := ".cjs" } [] = .error esmCjsErrorMsg ∧
    bundle { outputFileExtension := ".mjs" } [] = .error nonEsmMjsErrorMsg ∧
    ∃ r, bundle {} [{ entry := "a.ts", func := some { handler := "h" }, functionAlias := "f" }] = .ok r ∧
      r.invocations.length = 1 := by
  refine ⟨(claim3_extension_format_validation _ _).1 rfl rfl,
          (claim3_extension_format_validation _ _).2.1 rfl rfl,
          (claim3_extension_format_validation _ _).2.2 (by decide) (by decide)⟩

/-- Claim C4 (counterexample): the entry "file" contains no dot yet is
among those built; its computed bundle path is "fil.js" — the entry's
final character is dropped — which is neither the entry with its (empty)
extension replaced ("file.js") nor the entry left unchanged. -/
theorem claim4_counterexample :
    bundle {} [{ entry := "file", func := some { handler := "h" }, functionAlias := "f" }] =
      .ok { invocations := [["file"]],
            buildResults := [{ bundlePath := "fil.js", func := { handler := "h" },
                               functionAlias := "f" }] } ∧
    ("fil.js" : String) ≠ "file.js" ∧ ("fil.js" : String) ≠ "file" := by
  exact ⟨rfl, by decide, by decide⟩

/-- Claim C4 (amended): for every function entry whose entry path's final
segment contains a dot — entry = pre ++ "." ++ suf with no dot in suf —
a successful bundle contains a FunctionBuildResult for it whose
bundlePath is the entry with the suffix from its last dot replaced by the
configured output extension. -/
theorem claim4_amended (opts : BuildOptions) (entries : List FunctionEntry) (r : BundleResult)
    (h : bundle opts entries = .ok r) (fe : FunctionEntry) (hfe : fe ∈ entries)
    (f : FunctionDef) (hf : fe.func = some f) (pre suf : List Char)
    (hsplit : fe.entry.data = pre ++ '.' :: suf) (hsuf : ∀ a ∈ suf, a ≠ '.') :
    ({ bundlePath := String.mk (pre ++ opts.outputFileExtension.data), func := f,
       functionAlias := fe.functionAlias } : FunctionBuildResult) ∈ r.buildResults := by
  rw [bundle_ok_inv opts entries r h]
  have hmem : fe.entry ∈ uniq (entries.map (fun fe => fe.entry)) :=
    mem_uniq_of_mem (List.mem_map_of_mem _ hfe)
  have hcache : lookupA (buildCacheOf ((uniq (entries.map (fun fe => fe.entry))).map (fun entry =>
        ({ bundlePath := bundlePathStr entry opts.outputFileExtension, entry := entry } :
          FileBuildResult)))) fe.entry =
      some { bundlePath := bundlePathStr fe.entry opts.outputFileExtension, entry := fe.entry } :=
    lookupA_buildCache_map _ _ fe.entry hmem
  have hbp : bundlePathStr fe.entry opts.outputFileExtension =
      String.mk (pre ++ opts.outputFileExtension.data) := by
    unfold bundlePathStr
    rw [hsplit, bundlePathChars_split pre suf _ hsuf]
  unfold mapBuildResults
  apply List.mem_filterMap.mpr
  refine ⟨fe, hfe, ?_⟩
  rw [hcache, hf]
  simp [hbp]

/-- Witness for the amended C4 at the concrete entry "a.ts". -/
theorem claim4_amended_witness :
    ({ bundlePath := String.mk (['a'] ++ (".js" : String).data), func := { handler := "h" },
       functionAlias := "f" } : FunctionBuildResult) ∈
      ({ invocations := [["a.ts"]],
         buildResults := [{ bundlePath := "a.js", func := { handler := "h" }, functionAlias := "f" }] } :
        BundleResult).buildResults :=
  claim4_amended {} [{ entry := "a.ts", func := some { handler := "h" }, functionAlias := "f" }] _ rfl
    { entry := "a.ts", func := some { handler := "h" }, functionAlias := "f" } (by decide)
    { handler := "h" } rfl ['a'] ['t', 's'] rfl (by decide)

/-- Claim C5: mapping function entries back to bundles keeps exactly the
entries whose entry path resolves in the build cache and whose function
handle is present — each such entry yields exactly one result, in order —
and silently drops every other entry; the mapping is a total function,
so no error is ever raised. -/
theorem claim5_resolution_filter (functionEntries : List FunctionEntry)
    (rs : List FileBuildResult) :
    mapBuildResults functionEntries rs =
      (functionEntries.filter (fun fe =>
          (lookupA (buildCacheOf rs) fe.entry).isSome && fe.func.isSome)).map
        (fun fe =>
          { bundlePath := ((lookupA (buildCacheOf rs) fe.entry).map (fun fr => fr.bundlePath)).getD "",
            func := fe.func.getD { handler := "" },
            functionAlias := fe.functionAlias }) := by
  unfold mapBuildResults
  induction functionEntries with
  | nil => rfl
  | cons fe rest ih =>
    simp only [List.filterMap_cons, List.filter_cons]
    cases hl : lookupA (buildCacheOf rs) fe.entry with
    | none =>
      cases hf : fe.func with
      | none => simpa [hl, hf] using ih
      | some f => simpa [hl, hf] using ih
    | some fr =>
      cases hf : fe.func with
      | none => simpa [hl, hf] using ih
      | some f => simpa [hl, hf] using ih

/-- Claim C7: the Bun packager's install spawns a production install
first; if that spawn fails, exactly one fallback spawn without the
production flag follows, and the fallback's outcome — in particular its
error — is the one surfaced; if the first attempt succeeds no second
spawn happens. -/
theorem claim7_install_fallback (extraArgs : List String)
    (spawn : List String → Except String Unit) :
    (spawn ("install" :: "--production" :: extraArgs) = .ok () →
      bunInstall extraArgs spawn =
        ([{ command := "bun", args := "install" :: "--production" :: extraArgs }], .ok ())) ∧
    (∀ e1, spawn ("install" :: "--production" :: extraArgs) = .error e1 →
      (bunInstall extraArgs spawn).1 =
        [{ command := "bun", args := "install" :: "--production" :: extraArgs },
         { command := "bun", args := "install" :: extraArgs }] ∧
      (bunInstall extraArgs spawn).2 = spawn ("install" :: extraArgs)) ∧
    (∀ e1 e2, spawn ("install" :: "--production" :: extraArgs) = .error e1 →
      spawn ("install" :: extraArgs) = .error e2 →
      (bunInstall extraArgs spawn).2 = .error e2) := by
  refine ⟨?_, ?_, ?_⟩
  · intro h
    simp [bunInstall, h]
  · intro e1 h
    cases hf : spawn ("install" :: extraArgs) with
    | ok u => exact ⟨by simp [bunInstall, h, hf], by simp [bunInstall, h, hf]⟩
    | error e2 => exact ⟨by simp [bunInstall, h, hf], by simp [bunInstall, h, hf]⟩
  · intro e1 e2 h hf
    simp [bunInstall, h, hf]

/-- Witness for C7: a spawn stub failing on both attempts — two spawned
invocations and the fallback's error surfaced. -/
theorem claim7_witness :
    (bunInstall []
        (fun args => if args = ["install"] then .error "fallback failed" else .error "prod failed")).1 =
      [{ command := "bun", args := ["install", "--production"] },
       { command := "bun", args := ["install"] }] ∧
    (bunInstall []
        (fun args => if args = ["install"] then .error "fallback failed" else .error "prod failed")).2 =
      .error "fallback failed" := by
  refine ⟨((claim7_install_fallback []
      (fun args => if args = ["install"] then .error "fallback failed" else .error "prod failed")).2.1
      "prod failed" (by rfl)).1,
    (claim7_install_fallback []
      (fun args => if args = ["install"] then .error "fallback failed" else .error "prod failed")).2.2
      "prod failed" "fallback failed" (by rfl) (by rfl)⟩

/-- Claim C8: the direct-streaming zip engine is deterministic in the
target path — the entry stream handed to the archiver, which determines
the archive bytes, is identical for two different target paths on the
same inputs — every appended entry carries the forced epoch timestamp and
the stat-ed permission mode and content of a non-directory input, and
directory entries contribute nothing to the stream. -/
theorem claim8_zip_deterministic (p1 p2 : String) (files : List IFile)
    (stat : String → FileStats) :
    nodeZip p1 files stat = nodeZip p2 files stat ∧
    (∀ e ∈ nodeZip p1 files stat, e.date = 0 ∧
      ∃ f ∈ files, (stat f.rootPath).isDirectory = false ∧ e.name = f.localPath ∧
        e.mode = (stat f.rootPath).mode ∧ e.content = (stat f.rootPath).content) ∧
    nodeZip p1 files stat =
      nodeZip p1 (files.filter (fun f => !(stat f.rootPath).isDirectory)) stat := by
  refine ⟨rfl, ?_, ?_⟩
  · intro e he
    unfold nodeZip at he
    rcases List.mem_filterMap.mp he with ⟨f, hf, hsome⟩
    by_cases hd : (stat f.rootPath).isDirectory = true
    · simp [hd] at hsome
    · simp only [hd, if_false, Option.some.injEq, Bool.false_eq_true] at hsome
      subst hsome
      exact ⟨rfl, f, hf, Bool.eq_false_iff.mpr hd, rfl, rfl, rfl⟩
  · induction files with
    | nil => rfl
    | cons f rest ih =>
      unfold nodeZip
      unfold nodeZip at ih
      simp only [List.filterMap_cons, List.filter_cons]
      by_cases hd : (stat f.rootPath).isDirectory
      · simpa [hd] using ih
      · simpa [hd] using ih

/-- Witness for C8: two target paths over one regular file and one
directory — identical entry streams, the directory skipped, the epoch
date forced. -/
theorem claim8_witness :
    nodeZip "out/a.zip"
        [{ rootPath := "/src/x.js", localPath := "x.js" },
         { rootPath := "/src/dir", localPath := "dir" }]
        (fun p => if p = "/src/dir" then { isDirectory := true, mode := 493, content := [] }
                  else { isDirectory := false, mode := 420, content := [7, 7, 7] }) =
      nodeZip "out/b.zip"
        [{ rootPath := "/src/x.js", localPath := "x.js" },
         { rootPath := "/src/dir", localPath := "dir" }]
        (fun p => if p = "/src/dir" then { isDirectory := true, mode := 493, content := [] }
                  else { isDirectory := false, mode := 420, content := [7, 7, 7] }) ∧
    ({ name := "x.js", mode := 420, date := 0, content := [7, 7, 7] } : ZipEntry).date = 0 := by
  refine ⟨(claim8_zip_deterministic _ _ _ _).1,
    ((claim8_zip_deterministic "out/a.zip" "out/b.zip"
        [{ rootPath := "/src/x.js", localPath := "x.js" },
         { rootPath := "/src/dir", localPath := "dir" }]
        (fun p => if p = "/src/dir" then { isDirectory := true, mode := 493, content := [] }
                  else { isDirectory := false, mode := 420, content := [7, 7, 7] })).2.1
      { name := "x.js", mode := 420, date := 0, content := [7, 7, 7] } (by decide)).1⟩

/-- Claim C9: getProdDependencies returns the dependencies section of a
readable, valid manifest as a name → {version} record; it returns the
empty record — without propagating any error — when the manifest could
not be read or parsed, when the parsed value is not a JSON object, or
when it has no dependencies key. -/
theorem claim9_prod_dependencies (manifest : Option JsVal) :
    (manifest = none → getProdDependencies manifest = { dependencies := [] }) ∧
    (∀ v, manifest = some v → (∀ fields, v ≠ .vobj fields) →
      getProdDependencies manifest = { dependencies := [] }) ∧
    (∀ fields, manifest = some (.vobj fields) → lookupA fields "dependencies" = none →
      getProdDependencies manifest = { dependencies := [] }) ∧
    (∀ fields dkvs, manifest = some (.vobj fields) →
      lookupA fields "dependencies" = some (.vobj dkvs) → (dkvs.map Prod.fst).Nodup →
      getProdDependencies manifest =
        { dependencies := dkvs.map (fun p => (p.1, JsVal.vobj [("version", p.2)])) }) := by
  refine ⟨?_, ?_, ?_, ?_⟩
  · intro h
    subst h
    rfl
  · intro v h hno
    subst h
    cases v with
    | vobj fields => exact absurd rfl (hno fields)
    | vnull => rfl
    | vundef => rfl
    | vbool b => rfl
    | vnum n => rfl
    | vstr s => rfl
    | varr elems => rfl
  · intro fields h hl
    subst h
    simp [getProdDependencies, hl, jsEntries]
  · intro fields dkvs h hl hnodup
    subst h
    have hfold := foldlSet_eq_append (fun v => JsVal.vobj [("version", v)]) dkvs []
      (by simpa using hnodup)
    simp only [List.nil_append] at hfold
    simp [getProdDependencies, hl, jsTruthy, jsEntries, hfold]

/-- Witness for C9: the four cases at concrete manifests. -/
theorem claim9_witness :
    getProdDependencies none = { dependencies := [] } ∧
    getProdDependencies (some (.vnum 5)) = { dependencies := [] } ∧
    getProdDependencies (some (.vobj [("name", .vstr "app")])) = { dependencies := [] } ∧
    getProdDependencies
        (some (.vobj [("name", .vstr "app"),
                      ("dependencies", .vobj [("effect", .vstr "3.0.0"), ("ramda", .vstr "0.29.0")])])) =
      { dependencies := [("effect", .vobj [("version", .vstr "3.0.0")]),
                         ("ramda", .vobj [("version", .vstr "0.29.0")])] } := by
  refine ⟨(claim9_prod_dependencies none).1 rfl,
    (claim9_prod_dependencies _).2.1 (.vnum 5) rfl (fun fields h => by cases h),
    (claim9_prod_dependencies _).2.2.1 [("name", .vstr "app")] rfl (by rfl),
    (claim9_prod_dependencies _).2.2.2 [("name", .vstr "app"),
        ("dependencies", .vobj [("effect", .vstr "3.0.0"), ("ramda", .vstr "0.29.0")])]
      [("effect", .vstr "3.0.0"), ("ramda", .vstr "0.29.0")] rfl (by rfl) (by decide)⟩

/-- Claim C10: the bundle path truncates the entry at the last dot
occurring anywhere in it: with a dot-free suffix after the last dot the
result is the prefix plus the output extension; with no dot at all the
entry loses its final character before the extension is appended; a dot
occurring only in a directory segment is still the truncation point. -/
theorem claim10_last_dot_truncation (ext : List Char) :
    (∀ pre suf, (∀ a ∈ suf, a ≠ '.') →
      bundlePathChars (pre ++ '.' :: suf) ext = pre ++ ext) ∧
    (∀ entry, (∀ a ∈ entry, a ≠ '.') →
      bundlePathChars entry ext = entry.dropLast ++ ext) ∧
    (∀ dpre dsuf rest, (∀ a ∈ dsuf, a ≠ '.') → (∀ a ∈ rest, a ≠ '.') →
      bundlePathChars (dpre ++ '.' :: (dsuf ++ '/' :: rest)) ext = dpre ++ ext) := by
  refine ⟨fun pre suf h => bundlePathChars_split pre suf ext h,
          fun entry h => bundlePathChars_dotFree entry ext h,
          fun dpre dsuf rest h1 h2 => ?_⟩
  apply bundlePathChars_split
  intro a ha
  rcases List.mem_append.mp ha with h | h
  · exact h1 a h
  · rcases List.mem_cons.mp h with h | h
    · subst h
      decide
    · exact h2 a h

/-- Witness for C10: the three shapes at concrete entries
("a.ts", "file", "dir.v2/idx"). -/
theorem claim10_witness :
    bundlePathChars (['a'] ++ '.' :: ['t', 's']) (".js" : String).data = ['a'] ++ (".js" : String).data ∧
    bundlePathChars ['f', 'i', 'l', 'e'] (".js" : String).data =
      (['f', 'i', 'l', 'e'] : List Char).dropLast ++ (".js" : String).data ∧
    bundlePathChars (['d', 'i', 'r'] ++ '.' :: (['v', '2'] ++ '/' :: ['i', 'd', 'x'])) (".js" : String).data =
      ['d', 'i', 'r'] ++ (".js" : String).data := by
  refine ⟨(claim10_last_dot_truncation _).1 ['a'] ['t', 's'] (by decide),
          (claim10_last_dot_truncation _).2.1 ['f', 'i', 'l', 'e'] (by decide),
          (claim10_last_dot_truncation _).2.2 ['d', 'i', 'r'] ['v', '2'] ['i', 'd', 'x']
            (by decide) (by decide)⟩

theorem lookupA_invocationConfig (buildOptions : List (String × JsVal)) (plugins : JsVal)
    (entryPoints : List String) (outdir : String) (k : String)
    (h1 : k ≠ "outbase") (h2 : k ≠ "outdir") (h3 : k ≠ "entryPoints") (h4 : k ≠ "outExtension") :
    lookupA (invocationConfig buildOptions plugins entryPoints outdir) k =
      lookupA (bundleConfig buildOptions plugins) k := by
  simp only [invocationConfig]
  rw [lookupA_setKeyA_ne _ _ h1, lookupA_setKeyA_ne _ _ h2, lookupA_setKeyA_ne _ _ h3]
  split
  · split
    · exact lookupA_setKeyA_ne _ _ h4
    · rfl
  · rfl

/-- Claim C6: the configuration object handed to the compiler invocation
contains none of the plugin-only keys, and its external list equals the
names extracted from the external option (strings and object keys)
followed by the exclude names, except that a wildcard "*" in the exclude
list suppresses the exclude contribution. -/
theorem claim6_compiler_config (buildOptions : List (String × JsVal)) (plugins : JsVal)
    (entryPoints : List String) (outdir : String) :
    (∀ k ∈ pluginOptionKeys,
      lookupA (invocationConfig buildOptions plugins entryPoints outdir) k = none) ∧
    lookupA (invocationConfig buildOptions plugins entryPoints outdir) "external" =
      some (.varr
        ((getExternalNames ((lookupA buildOptions "external").getD .vundef) ++
          (if (getStringArray ((lookupA buildOptions "exclude").getD .vundef)).contains "*" then []
           else getStringArray ((lookupA buildOptions "exclude").getD .vundef))).map .vstr)) := by
  constructor
  · intro k hk
    have hall : ∀ x ∈ pluginOptionKeys, x ≠ "outbase" ∧ x ≠ "outdir" ∧ x ≠ "entryPoints" ∧
        x ≠ "outExtension" ∧ x ≠ "plugins" ∧ x ≠ "external" := by decide
    obtain ⟨h1, h2, h3, h4, h5, h6⟩ := hall k hk
    rw [lookupA_invocationConfig _ _ _ _ k h1 h2 h3 h4]
    simp only [bundleConfig]
    rw [lookupA_setKeyA_ne _ _ h5, lookupA_setKeyA_ne _ _ h6]
    exact lookupA_eraseFold_mem pluginOptionKeys buildOptions k hk
  · rw [lookupA_invocationConfig _ _ _ _ "external" (by decide) (by decide) (by decide) (by decide)]
    simp only [bundleConfig]
    rw [lookupA_setKeyA_ne _ _ (by decide)]
    exact lookupA_setKeyA_self _ _ _

/-- Witness for C6: a concrete configuration with a plugin-only key, a
mixed external option and an exclude list. -/
theorem claim6_witness :
    lookupA
        (invocationConfig
          [("concurrency", .vnum 3), ("target", .vstr "node12"),
           ("external", .varr [.vstr "dep1", .vobj [("pkgA", .vnull)]]),
           ("exclude", .varr [.vstr "aws-sdk"]), ("outputFileExtension", .vstr ".js")]
          (.varr []) ["a.ts"] "outdir") "concurrency" = none ∧
    lookupA
        (invocationConfig
          [("concurrency", .vnum 3), ("target", .vstr "node12"),
           ("external", .varr [.vstr "dep1", .vobj [("pkgA", .vnull)]]),
           ("exclude", .varr [.vstr "aws-sdk"]), ("outputFileExtension", .vstr ".js")]
          (.varr []) ["a.ts"] "outdir") "external" =
      some (.varr [.vstr "dep1", .vstr "pkgA", .vstr "aws-sdk"]) := by
  constructor
  · exact (claim6_compiler_config _ _ _ _).1 "concurrency" (by decide)
  · exact (claim6_compiler_config
      [("concurrency", .vnum 3), ("target", .vstr "node12"),
       ("external", .varr [.vstr "dep1", .vobj [("pkgA", .vnull)]]),
       ("exclude", .varr [.vstr "aws-sdk"]), ("outputFileExtension", .vstr ".js")]
      (.varr []) ["a.ts"] "outdir").2

end ServerlessEsbuild
